import Mathlib

/-!
Formal model of the client-side data-aggregation pipeline of the ice-air
dashboard (`src/frontend/src/dataUtils.js` together with the filter logic of
`src/frontend/src/App.js`).

Conventions of the shallow embedding:

* JS `Date` values are their millisecond-since-epoch timestamps, modelled as
  `Int`.  `Date.prototype.getDay`/`getHours` depend on the runtime's local
  time zone; the embedding is parameterised by an arbitrary offset function
  `ofs : Int → Int` giving the local-time offset (in ms) at each instant,
  which covers any fixed zone as well as DST transitions.
  `toISOString().split('T')[0]` (the UTC calendar date) is in bijection with
  `⌊t / 86400000⌋`, so UTC date strings are modelled by that integer day
  number (`utcDay`).
* A JS plain object used as a string-keyed map is modelled as an association
  list in key-insertion order (`Dict`): updating an existing key keeps its
  position, a new key is appended at the end, matching the enumeration order
  of `Object.entries` / `Object.keys` for non-index keys.
* A JS `Set` is modelled as its insertion-ordered list of distinct elements.
* `Array.prototype.sort(cmp)` (stable in all modern engines) is modelled by
  the stable insertion sort `jsSort le`, where `le a b` renders
  `cmp(a, b) <= 0`.
* A numeric counter array `Array(n).fill(0)` indexed by `0 ≤ i < n` is
  modelled as a function `Nat → Nat` that is zero outside the touched
  indices.
* A possibly-missing string field is `Option String`; `none` models a field
  that is absent or `null`/`undefined`.  JS truthiness of such a field
  (which also rejects the empty string) is `truthy`.

`dataUtils.js` in this repository contains two concatenated revisions of the
same module; the definitions below follow the first revision (lines 10-300),
which is the one whose output shape the in-tree consumers
(`SummaryStatistics.js`) destructure.  The second revision differs only in
the guard of the aggregation loop (it drops the `icao` requirement) and in
carrying the first-seen icao alongside each registration entry; divergences
are noted where they matter.
-/

namespace IceAir

/-! ### JS truthiness for optional string fields -/

/-- Truthiness of a possibly-missing JS string field: `null`/`undefined`
(modelled by `none`) and the empty string are falsy. -/
def truthy : Option String → Bool
  | none => false
  | some s => s ≠ ""

/-! ### Stable sort: model of `Array.prototype.sort` -/

/-- Insert `x` into `l`, skipping exactly the elements that must stay
strictly before `x`.  Used from the right, this yields a stable sort: an
element is placed before every element it ties with that occurred later in
the input. -/
def insertBy (le : α → α → Bool) (x : α) : List α → List α
  | [] => [x]
  | y :: ys => if le y x && !le x y then y :: insertBy le x ys else x :: y :: ys

/-- Model of the (stable) JS `Array.prototype.sort(cmp)`; `le a b` renders
`cmp(a, b) <= 0`. -/
def jsSort (le : α → α → Bool) (l : List α) : List α :=
  l.foldr (insertBy le) []

/-! ### JS objects as insertion-ordered association lists -/

/-- A JS plain object used as a map, in key-insertion order. -/
abbrev Dict (κ α : Type) := List (κ × α)

/-- Key lookup (`obj[k]`, `undefined` rendered as `none`). -/
def Dict.getv? [DecidableEq κ] : Dict κ α → κ → Option α
  | [], _ => none
  | (k', v) :: rest, k => if k' = k then some v else Dict.getv? rest k

/-- Counter update `obj[k] = (obj[k] || 0) + 1`: update in place, or append a fresh key. -/
def bump [DecidableEq κ] : Dict κ Nat → κ → Dict κ Nat
  | [], k => [(k, 1)]
  | (k', c) :: rest, k =>
    if k' = k then (k', c + 1) :: rest else (k', c) :: bump rest k

/-- Model of `Set.prototype.add`: append if not already present. -/
def insertSet [DecidableEq κ] (s : List κ) (x : κ) : List κ :=
  if x ∈ s then s else s ++ [x]

/-- The distinct elements of `l` in order of first occurrence (the contents
of a JS `Set` filled by scanning `l`). -/
def firstSeen [DecidableEq κ] (l : List κ) : List κ :=
  l.foldl insertSet []

/-- Histogram increment `arr[i]++` on a zero-initialised counter array. -/
def histBump (h : Nat → Nat) (i : Nat) : Nat → Nat :=
  fun j => if j = i then h j + 1 else h j

/-- Update `obj[k][i]++` where `obj[k]` is created as `Array(n).fill(0)` on first
use. -/
def dictHistBump [DecidableEq κ] : Dict κ (Nat → Nat) → κ → Nat → Dict κ (Nat → Nat)
  | [], k, i => [(k, histBump (fun _ => 0) i)]
  | (k', h) :: rest, k, i =>
    if k' = k then (k', histBump h i) :: rest else (k', h) :: dictHistBump rest k i

/-- Update `obj[k][k2] = (obj[k][k2] || 0) + 1` where `obj[k]` is created as `{}` on
first use. -/
def nestBump [DecidableEq κ] [DecidableEq κ'] :
    Dict κ (Dict κ' Nat) → κ → κ' → Dict κ (Dict κ' Nat)
  | [], k, k2 => [(k, [(k2, 1)])]
  | (k', m) :: rest, k, k2 =>
    if k' = k then (k', bump m k2) :: rest else (k', m) :: nestBump rest k k2

/-- Lookup in a nested counter object. -/
def lookup2 [DecidableEq κ] [DecidableEq κ'] (m : Dict κ (Dict κ' Nat)) (k : κ) (k2 : κ') :
    Option Nat :=
  (m.getv? k).bind (fun inner => inner.getv? k2)

/-! ### Guarded single-pass accumulators

Each accumulator of the `flights.forEach` loop in `aggregateFlightData`
depends only on its own previous value, so the simultaneous pass is
decomposed into one fold per accumulator.  The guard conditions of the loop
body are rendered as key functions returning `Option`: `none` means the
corresponding update is skipped for that record. -/

/-- Fold a counter object over the keyed occurrences of a list. -/
def tally [DecidableEq κ] (key : α → Option κ) (l : List α) : Dict κ Nat :=
  l.foldl (fun d a => match key a with | some k => bump d k | none => d) []

/-- Fold a `Set` over the keyed occurrences of a list. -/
def setOf [DecidableEq κ] (key : α → Option κ) (l : List α) : List κ :=
  l.foldl (fun s a => match key a with | some k => insertSet s k | none => s) []

/-- Fold a counter array over the keyed occurrences of a list. -/
def tallyHist (key : α → Option Nat) (l : List α) : Nat → Nat :=
  l.foldl (fun h a => match key a with | some i => histBump h i | none => h) (fun _ => 0)

/-- Fold an object of counter arrays over the keyed occurrences of a list. -/
def tallyDictHist [DecidableEq κ] (key : α → Option (κ × Nat)) (l : List α) :
    Dict κ (Nat → Nat) :=
  l.foldl (fun d a => match key a with | some (k, i) => dictHistBump d k i | none => d) []

/-- Fold a nested counter object over the keyed occurrences of a list. -/
def tallyNest [DecidableEq κ] [DecidableEq κ'] (key : α → Option (κ × κ')) (l : List α) :
    Dict κ (Dict κ' Nat) :=
  l.foldl (fun d a => match key a with | some (k, k2) => nestBump d k k2 | none => d) []

/-! ### Time helpers -/

/-- UTC calendar day number of a timestamp: stands for the date string
`t.toISOString().split('T')[0]`, and equally for the day reached by
`setUTCHours(0,0,0,0)` truncation. -/
def utcDay (t : Int) : Int := t.fdiv 86400000

/-- Model of `Date.prototype.getDay()` (0 = Sunday .. 6 = Saturday) under the local
offset function `ofs`; 1970-01-01 was a Thursday (= 4). -/
def getDay (ofs : Int → Int) (t : Int) : Nat :=
  (((t + ofs t).fdiv 86400000 + 4).emod 7).toNat

/-- Model of `Date.prototype.getHours()` (0..23) under the local offset function. -/
def getHours (ofs : Int → Int) (t : Int) : Nat :=
  (((t + ofs t).fdiv 3600000).emod 24).toNat

/-- The consecutive day numbers from `lo` to `hi` inclusive (the
`while (currentDate <= endLoopDate)` iteration, one step per UTC day). -/
def dayRange (lo hi : Int) : List Int :=
  (List.range (hi + 1 - lo).toNat).map (fun i : Nat => lo + (i : Int))

/-! ### The flight data model -/

/-- A CSV row as handed to `processInitialData`: `landing_time` is `none`
when the field is missing/falsy or does not parse as a date
(`isNaN(new Date(t).getTime())`), and carries the parsed timestamp
otherwise; `takeoff_time` likewise with `none` for a falsy field. -/
structure RawFlight where
  landing_time : Option Int := none
  takeoff_time : Option Int := none
  icao : Option String := none
  origin : Option String := none
  destination : Option String := none
  callsign : Option String := none
  registration : Option String := none
deriving DecidableEq

/-- A validated flight record (after `processInitialData`): `landing_time`
is a definite timestamp. -/
structure Flight where
  landing_time : Int
  takeoff_time : Option Int := none
  icao : Option String := none
  origin : Option String := none
  destination : Option String := none
  callsign : Option String := none
  registration : Option String := none
deriving DecidableEq

/-- The per-row conversion in `processInitialData`'s `.map`: keep
`landing_time` as the timestamp, `takeoff_time` if truthy, and replace a
falsy `registration` by `null`. -/
def parseRaw (r : RawFlight) : Flight where
  landing_time := r.landing_time.getD 0
  takeoff_time := r.takeoff_time
  icao := r.icao
  origin := r.origin
  destination := r.destination
  callsign := r.callsign
  registration := if truthy r.registration then r.registration else none

/-- Ascending comparison by landing time: renders the JS comparator
`(a, b) => a.landing_time - b.landing_time`. -/
def leLanding (a b : Flight) : Bool := a.landing_time ≤ b.landing_time

/-- Result of `processInitialData`. -/
structure InitialData where
  rawFlights : List Flight
  earliestTime : Int
  latestTime : Int
deriving DecidableEq

/-- Model of `processInitialData`: drop rows without a parseable `landing_time`,
convert, sort ascending by landing time, and throw (modelled by `.error`)
when nothing remains; otherwise also report the first and last landing
times of the sorted list. -/
def processInitialData (rs : List RawFlight) : Except String InitialData :=
  match jsSort leLanding ((rs.filter (fun r => r.landing_time.isSome)).map parseRaw) with
  | [] => .error "No valid rows with parseable landing_times found in CSV."
  | f :: rest =>
    .ok { rawFlights := f :: rest
          earliestTime := f.landing_time
          latestTime := ((f :: rest).getLast (List.cons_ne_nil f rest)).landing_time }

/-! ### The aggregation loop's guards and keys (first revision, lines 103-159) -/

/-- The loop's early return `if (!icao || !destination) return;`: a record
contributes to the destination statistics only when both fields are truthy. -/
def counted (f : Flight) : Bool := truthy f.icao && truthy f.destination

/-- Destination code of a counted record. -/
def destOf (f : Flight) : String := f.destination.getD ""

/-- Origin code of a record with a truthy origin. -/
def originOf (f : Flight) : String := f.origin.getD ""

/-- Icao code of a counted record. -/
def icaoOf (f : Flight) : String := f.icao.getD ""

/-- Guard of the pair/arrivals block:
`if (origin && origin !== destination)` inside the counted branch. -/
def hasPair (f : Flight) : Bool :=
  counted f && truthy f.origin && !(originOf f == destOf f)

/-- The pair key `` `${origin}-${destination}` ``. -/
def pairOf (f : Flight) : String := originOf f ++ "-" ++ destOf f

/-- Key of `airportCounts[destination]++`. -/
def destKey (f : Flight) : Option String :=
  if counted f then some (destOf f) else none

/-- Key of `airportPairs[pair]++`. -/
def pairKey (f : Flight) : Option String :=
  if hasPair f then some (pairOf f) else none

/-- Key of `uniqueIcaos.add(icao)` / `icaoCounts[icao]++`. -/
def icaoKey (f : Flight) : Option String :=
  if counted f then some (icaoOf f) else none

/-- Key of `uniqueCallsigns.add(...)` / `callsignCounts[...]++`
(`if (callsign)` with `.trim()`). -/
def callsignKey (f : Flight) : Option String :=
  if counted f && truthy f.callsign then some ((f.callsign.getD "").trim) else none

/-- Key of `uniqueRegistrations.add(...)` / `registrationCounts[...]++`. -/
def regKey (f : Flight) : Option String :=
  if counted f && truthy f.registration then some ((f.registration.getD "").trim) else none

/-- Key of `landingsByDay[dayOfWeek]++`. -/
def dayKey (ofs : Int → Int) (f : Flight) : Option Nat :=
  if counted f then some (getDay ofs f.landing_time) else none

/-- Key of `landingsByHour[hourOfDay]++`. -/
def hourKey (ofs : Int → Int) (f : Flight) : Option Nat :=
  if counted f then some (getHours ofs f.landing_time) else none

/-- Key of `airportLandingsByDay[destination][dayOfWeek]++`. -/
def destDayKey (ofs : Int → Int) (f : Flight) : Option (String × Nat) :=
  if counted f then some (destOf f, getDay ofs f.landing_time) else none

/-- Key of `airportLandingsByHour[destination][hourOfDay]++`. -/
def destHourKey (ofs : Int → Int) (f : Flight) : Option (String × Nat) :=
  if counted f then some (destOf f, getHours ofs f.landing_time) else none

/-- Key of `pairLandingsByDay[pair][dayOfWeek]++`. -/
def pairDayKey (ofs : Int → Int) (f : Flight) : Option (String × Nat) :=
  if hasPair f then some (pairOf f, getDay ofs f.landing_time) else none

/-- Key of `pairLandingsByHour[pair][hourOfDay]++`. -/
def pairHourKey (ofs : Int → Int) (f : Flight) : Option (String × Nat) :=
  if hasPair f then some (pairOf f, getHours ofs f.landing_time) else none

/-- Key of `arrivalsFrom[destination][origin]++`. -/
def arrivalKey (f : Flight) : Option (String × String) :=
  if hasPair f then some (destOf f, originOf f) else none

/-! ### Daily-activity keys (lines 161-230; note these do NOT require icao) -/

/-- Guard `if (flight.destination) dailyLandings++` and the per-destination daily
dict key. -/
def dailyDestKey (f : Flight) : Option String :=
  if truthy f.destination then some (destOf f) else none

/-- Guard `if (flight.icao) dailyUniqueAircraft.add(flight.icao)`. -/
def dailyIcaoKey (f : Flight) : Option String :=
  if truthy f.icao then some (icaoOf f) else none

/-- Guard and key of the daily pair activity:
`flight.origin && flight.destination && origin !== destination`. -/
def dailyPairKey (f : Flight) : Option String :=
  if truthy f.origin && truthy f.destination && !(originOf f == destOf f) then
    some (pairOf f)
  else none

/-- The flights whose landing time falls on UTC day `d`
(`flightsByDate[dateString]`, in input order). -/
def flightsOn (flights : List Flight) (d : Int) : List Flight :=
  flights.filter (fun f => utcDay f.landing_time == d)

/-- Per-day per-destination activity record: `{ landings, uniqueAircraft }`
with the `Set` as an insertion-ordered list. -/
def dayDestActivity (todays : List Flight) : Dict String (Nat × List String) :=
  (setOf dailyDestKey todays).map (fun a =>
    (a, ((todays.filter (fun f => dailyDestKey f == some a)).length,
         setOf dailyIcaoKey (todays.filter (fun f => dailyDestKey f == some a)))))

/-- Per-day per-pair activity record: `{ flights, uniqueAircraft }`. -/
def dayPairActivity (todays : List Flight) : Dict String (Nat × List String) :=
  (setOf dailyPairKey todays).map (fun p =>
    (p, ((todays.filter (fun f => dailyPairKey f == some p)).length,
         setOf dailyIcaoKey (todays.filter (fun f => dailyPairKey f == some p)))))

/-! ### Sorting of count entries -/

/-- The descending-count comparator `([, a], [, b]) => b - a`:
`cmp(x, y) <= 0` iff `y.count <= x.count`. -/
def cmpCount (a b : κ × Nat) : Bool := b.2 ≤ a.2

/-- Model of `Object.entries(counts).sort(byCountDesc)`. -/
def sortEntries (d : Dict κ Nat) : List (κ × Nat) := jsSort cmpCount d

/-- Default JS string comparison (code-unit order; for the ASCII airport
codes at hand this coincides with Lean's `String` order). -/
def strLe (a b : String) : Bool := a ≤ b

/-! ### The aggregation result -/

/-- The object returned by `aggregateFlightData` (first revision).  Date
strings are represented by UTC day numbers and `Set`-valued members by
insertion-ordered lists, as explained in the header. -/
structure AggResult where
  totalFlightsProcessed : Nat
  uniqueAircraftCount : Nat
  uniqueCallsignCount : Nat
  uniqueRegistrationCount : Nat
  topCallsigns : List (String × Nat)
  topIcaos : List (String × Nat)
  topRegistrations : List (String × Nat)
  allSortedCallsigns : List (String × Nat)
  allSortedIcaos : List (String × Nat)
  allSortedRegistrations : List (String × Nat)
  sortedAirports : List (String × Nat)
  sortedPairs : List (String × Nat)
  landingsByDay : Nat → Nat
  landingsByHour : Nat → Nat
  airportLandingsByDay : Dict String (Nat → Nat)
  airportLandingsByHour : Dict String (Nat → Nat)
  pairLandingsByDay : Dict String (Nat → Nat)
  pairLandingsByHour : Dict String (Nat → Nat)
  arrivalsFrom : Dict String (Dict String Nat)
  allAirports : List String
  allPairs : List String
  dailyLabels : List Int
  dailyUniqueAircraftCounts : List Nat
  dailyTotalLandings : List Nat
  airportDailyActivity : Dict Int (Dict String (Nat × List String))
  pairDailyActivity : Dict Int (Dict String (Nat × List String))
  numberOfDays : Nat

/-- The empty/default structure returned for a missing or empty flight list
(lines 48-79). -/
def emptyAggResult : AggResult where
  totalFlightsProcessed := 0
  uniqueAircraftCount := 0
  uniqueCallsignCount := 0
  uniqueRegistrationCount := 0
  topCallsigns := []
  topIcaos := []
  topRegistrations := []
  allSortedCallsigns := []
  allSortedIcaos := []
  allSortedRegistrations := []
  sortedAirports := []
  sortedPairs := []
  landingsByDay := fun _ => 0
  landingsByHour := fun _ => 0
  airportLandingsByDay := []
  airportLandingsByHour := []
  pairLandingsByDay := []
  pairLandingsByHour := []
  arrivalsFrom := []
  allAirports := []
  allPairs := []
  dailyLabels := []
  dailyUniqueAircraftCounts := []
  dailyTotalLandings := []
  airportDailyActivity := []
  pairDailyActivity := []
  numberOfDays := 0

/-- Model of `aggregateFlightData` (first revision, lines 47-300).  The simultaneous
`forEach` pass is decomposed accumulator-by-accumulator; `minTime`/`maxTime`
are read from the first and last element of the (assumed sorted) input, and
the daily-activity loop walks UTC days from the truncated `minTime` to the
truncated `maxTime`. -/
def aggregateFlightData (ofs : Int → Int) (flights : List Flight) : AggResult :=
  match flights with
  | [] => emptyAggResult
  | f0 :: rest =>
    let fl := f0 :: rest
    let minTime := f0.landing_time
    let maxTime := (fl.getLast (List.cons_ne_nil f0 rest)).landing_time
    let labels := dayRange (utcDay minTime) (utcDay maxTime)
    let airportCounts := tally destKey fl
    let airportPairs := tally pairKey fl
    { totalFlightsProcessed := fl.length
      uniqueAircraftCount := (setOf icaoKey fl).length
      uniqueCallsignCount := (setOf callsignKey fl).length
      uniqueRegistrationCount := (setOf regKey fl).length
      topCallsigns := (sortEntries (tally callsignKey fl)).take 5
      topIcaos := (sortEntries (tally icaoKey fl)).take 5
      topRegistrations := (sortEntries (tally regKey fl)).take 5
      allSortedCallsigns := sortEntries (tally callsignKey fl)
      allSortedIcaos := sortEntries (tally icaoKey fl)
      allSortedRegistrations := sortEntries (tally regKey fl)
      sortedAirports := (sortEntries airportCounts).take 20
      sortedPairs := (sortEntries airportPairs).take 20
      landingsByDay := tallyHist (dayKey ofs) fl
      landingsByHour := tallyHist (hourKey ofs) fl
      airportLandingsByDay := tallyDictHist (destDayKey ofs) fl
      airportLandingsByHour := tallyDictHist (destHourKey ofs) fl
      pairLandingsByDay := tallyDictHist (pairDayKey ofs) fl
      pairLandingsByHour := tallyDictHist (pairHourKey ofs) fl
      arrivalsFrom := tallyNest arrivalKey fl
      allAirports := jsSort strLe (airportCounts.map (fun p => p.1))
      allPairs := jsSort strLe (airportPairs.map (fun p => p.1))
      dailyLabels := labels
      dailyUniqueAircraftCounts :=
        labels.map (fun d => (setOf dailyIcaoKey (flightsOn fl d)).length)
      dailyTotalLandings :=
        labels.map (fun d => ((flightsOn fl d).filter (fun f => truthy f.destination)).length)
      airportDailyActivity := labels.map (fun d => (d, dayDestActivity (flightsOn fl d)))
      pairDailyActivity := labels.map (fun d => (d, dayPairActivity (flightsOn fl d)))
      numberOfDays := labels.length }

/-- The `if (!flights || flights.length === 0)` entry guard: a `null` or
`undefined` argument (modelled by `none`) yields the default structure. -/
def aggregateFlightDataOpt (ofs : Int → Int) : Option (List Flight) → AggResult
  | none => emptyAggResult
  | some l => aggregateFlightData ofs l

/-! ### `App.js`: the date-range filter (lines 704-730) -/

/-- Model of `filteredFlights`: with no selected range the raw list is returned
unchanged, otherwise rows are kept when their timestamp lies in the closed
interval `[startFilterTime, endFilterTime]`. -/
def filterByDateRange (raw : List Flight) (range : Option (Int × Int)) : List Flight :=
  match range with
  | none => raw
  | some (s, e) => raw.filter (fun f => s ≤ f.landing_time && f.landing_time ≤ e)

/-! ### Concrete sample data used to instantiate the theorems -/

/-- A trivial local-time offset (a UTC runtime). -/
def zeroOffset : Int → Int := fun _ => 0

/-- A CSV row with a parseable landing time but no destination field. -/
def c1raw : RawFlight := { landing_time := some 0, icao := some "c1a" }

/-- The corresponding validated record. -/
def c1flight : Flight := { landing_time := 0, icao := some "c1a" }

/-- Another record with a parseable landing time but no destination. -/
def c2flight : Flight := { landing_time := 0, icao := some "c2a" }

/-- A record with a destination missing, for the daily-activity series. -/
def c3cexFlight : Flight := { landing_time := 0, icao := some "c3a" }

/-- First record of a sorted two-flight sample (UTC day 0). -/
def c3f1 : Flight := { landing_time := 0, icao := some "c3w1", destination := some "AAA" }

/-- Second record of the sample (UTC day 2, one hour past midnight). -/
def c3f2 : Flight :=
  { landing_time := 176400000, icao := some "c3w2", destination := some "BBB" }

/-- A sorted two-flight list spanning three UTC days. -/
def c3list : List Flight := [c3f1, c3f2]

/-- First flight of the top-airports sample (destination AAA). -/
def c4f1 : Flight :=
  { landing_time := 0, icao := some "c4x", origin := some "OOO", destination := some "AAA" }

/-- Second flight of the top-airports sample (destination BBB). -/
def c4f2 : Flight :=
  { landing_time := 1, icao := some "c4y", origin := some "OOO", destination := some "BBB" }

/-- Third flight of the top-airports sample (destination BBB again). -/
def c4f3 : Flight :=
  { landing_time := 2, icao := some "c4z", origin := some "OOO", destination := some "BBB" }

/-- First flight of the frequency-listing sample (icao x). -/
def c7f1 : Flight := { landing_time := 0, icao := some "x", destination := some "AAA" }

/-- Second flight of the frequency-listing sample (icao x again). -/
def c7f2 : Flight := { landing_time := 1, icao := some "x", destination := some "AAA" }

/-- Third flight of the frequency-listing sample (icao y). -/
def c7f3 : Flight := { landing_time := 2, icao := some "y", destination := some "AAA" }

/-- A record whose origin equals its destination. -/
def c5flight : Flight :=
  { landing_time := 0, icao := some "c5a", origin := some "AAA", destination := some "AAA" }

/-- A row with no parseable landing time. -/
def c6raw1 : RawFlight := { callsign := some "NOPARSE" }

/-- A valid row landing on UTC day 3. -/
def c6raw2 : RawFlight := { landing_time := some 259200000, icao := some "c6b" }

/-- A valid row landing at the epoch. -/
def c6raw3 : RawFlight := { landing_time := some 0, icao := some "c6a" }

/-- An unsorted raw list with one unparseable row. -/
def c6rawList : List RawFlight := [c6raw1, c6raw2, c6raw3]

/-- The expected output of `processInitialData` on `c6rawList`. -/
def c6result : InitialData :=
  { rawFlights := [parseRaw c6raw3, parseRaw c6raw2]
    earliestTime := 0
    latestTime := 259200000 }

/-- Three sorted flights for the date-range filter sample. -/
def c9a : Flight := { landing_time := 0, icao := some "c9a" }

/-- Second date-range sample flight. -/
def c9b : Flight := { landing_time := 100, icao := some "c9b" }

/-- Third date-range sample flight. -/
def c9c : Flight := { landing_time := 200, icao := some "c9c" }

/-- The sorted raw list for the filter sample. -/
def c9raw : List Flight := [c9a, c9b, c9c]

/-- A date range keeping the middle and last flight. -/
def c9range : Option (Int × Int) := some (50, 250)

/-! ## Lemma layer -/

/-! ### The stable sort -/

theorem insertBy_perm (le : α → α → Bool) (x : α) (l : List α) :
    (insertBy le x l).Perm (x :: l) := by
  induction l with
  | nil => simp [insertBy]
  | cons y ys ih =>
    simp only [insertBy]
    split
    · exact (ih.cons y).trans (List.Perm.swap x y ys)
    · exact List.Perm.refl _

theorem jsSort_perm (le : α → α → Bool) (l : List α) : (jsSort le l).Perm l := by
  induction l with
  | nil => simp [jsSort]
  | cons x xs ih =>
    simpa [jsSort] using (insertBy_perm le x (jsSort le xs)).trans (ih.cons x)

theorem pairwise_insertBy {le : α → α → Bool}
    (htrans : ∀ a b c, le a b = true → le b c = true → le a c = true)
    (htotal : ∀ a b, le a b = true ∨ le b a = true) (x : α) {l : List α}
    (hl : l.Pairwise (fun a b => le a b = true)) :
    (insertBy le x l).Pairwise (fun a b => le a b = true) := by
  induction l with
  | nil => simp [insertBy]
  | cons y ys ih =>
    rw [List.pairwise_cons] at hl
    obtain ⟨hy, hys⟩ := hl
    simp only [insertBy]
    split
    case isTrue h =>
      refine List.pairwise_cons.mpr ⟨?_, ih hys⟩
      intro b hb
      rcases List.mem_cons.mp ((insertBy_perm le x ys).mem_iff.mp hb) with rfl | hbys
      · simp only [Bool.and_eq_true] at h
        exact h.1
      · exact hy b hbys
    case isFalse h =>
      have hxy : le x y = true := by
        rcases htotal x y with hxy | hyx
        · exact hxy
        · simp only [Bool.and_eq_true, Bool.not_eq_true', not_and] at h
          simpa using h hyx
      refine List.pairwise_cons.mpr ⟨?_, List.pairwise_cons.mpr ⟨hy, hys⟩⟩
      intro b hb
      rcases List.mem_cons.mp hb with rfl | hbys
      · exact hxy
      · exact htrans x y b hxy (hy b hbys)

theorem pairwise_jsSort {le : α → α → Bool}
    (htrans : ∀ a b c, le a b = true → le b c = true → le a c = true)
    (htotal : ∀ a b, le a b = true ∨ le b a = true) (l : List α) :
    (jsSort le l).Pairwise (fun a b => le a b = true) := by
  induction l with
  | nil => simp [jsSort]
  | cons x xs ih =>
    simpa [jsSort] using pairwise_insertBy htrans htotal x (by simpa [jsSort] using ih)

theorem filter_insertBy_pos {le : α → α → Bool} (p : α → Bool) (x : α) {l : List α}
    (hx : p x = true) (hcomp : ∀ y ∈ l, p y = true → (le y x && !le x y) = false) :
    (insertBy le x l).filter p = x :: l.filter p := by
  induction l with
  | nil => simp [insertBy, hx]
  | cons y ys ih =>
    simp only [insertBy]
    split
    case isTrue h =>
      have hpy : p y = false := by
        rcases Bool.eq_false_or_eq_true (p y) with ht | hf
        · exact absurd (hcomp y (List.mem_cons_self y ys) ht) (by simp [h])
        · exact hf
      rw [List.filter_cons_of_neg (by simp [hpy]),
        ih (fun z hz hpz => hcomp z (List.mem_cons_of_mem y hz) hpz),
        List.filter_cons_of_neg (by simp [hpy])]
    case isFalse h =>
      rw [List.filter_cons_of_pos (by simp [hx])]

theorem filter_insertBy_neg {le : α → α → Bool} (p : α → Bool) (x : α) {l : List α}
    (hx : p x = false) :
    (insertBy le x l).filter p = l.filter p := by
  induction l with
  | nil => simp [insertBy, hx]
  | cons y ys ih =>
    simp only [insertBy]
    split
    · cases hpy : p y with
      | false => rw [List.filter_cons_of_neg (by simp [hpy]), ih,
          List.filter_cons_of_neg (by simp [hpy])]
      | true => rw [List.filter_cons_of_pos (by simp [hpy]), ih,
          List.filter_cons_of_pos (by simp [hpy])]
    · rw [List.filter_cons_of_neg (by simp [hx])]

/-- Stability of the modelled JS sort: a class of mutually tied elements
(any two of them compare `<= 0` both ways) appears in the output in the same
order as in the input. -/
theorem filter_jsSort {le : α → α → Bool} (p : α → Bool)
    (hp : ∀ a b, p a = true → p b = true → le a b = true) (l : List α) :
    (jsSort le l).filter p = l.filter p := by
  induction l with
  | nil => simp [jsSort]
  | cons x xs ih =>
    have hx : jsSort le (x :: xs) = insertBy le x (jsSort le xs) := rfl
    rw [hx]
    cases hpx : p x with
    | true =>
      rw [filter_insertBy_pos p x hpx ?_, ih, List.filter_cons_of_pos (by simp [hpx])]
      intro y _ hpy
      have h1 : le x y = true := hp x y hpx hpy
      simp [h1]
    | false =>
      rw [filter_insertBy_neg p x hpx, ih, List.filter_cons_of_neg (by simp [hpx])]

/-! ### Reducing the guarded folds to folds over the keyed occurrences -/

theorem foldl_optKey (key : α → Option κ) (step : σ → κ → σ) (init : σ) (l : List α) :
    l.foldl (fun s a => match key a with | some k => step s k | none => s) init
      = (l.filterMap key).foldl step init := by
  induction l generalizing init with
  | nil => rfl
  | cons a l ih =>
    simp only [List.foldl_cons, List.filterMap_cons]
    cases key a <;> simp [ih]

theorem tally_eq [DecidableEq κ] (key : α → Option κ) (l : List α) :
    tally key l = (l.filterMap key).foldl bump [] :=
  foldl_optKey key bump [] l

theorem setOf_eq [DecidableEq κ] (key : α → Option κ) (l : List α) :
    setOf key l = firstSeen (l.filterMap key) :=
  foldl_optKey key insertSet [] l

theorem tallyHist_eq (key : α → Option Nat) (l : List α) :
    tallyHist key l = (l.filterMap key).foldl histBump (fun _ => 0) := by
  show l.foldl _ _ = _
  generalize (fun _ => 0 : Nat → Nat) = init
  induction l generalizing init with
  | nil => rfl
  | cons a l ih =>
    simp only [List.foldl_cons, List.filterMap_cons]
    cases h : key a <;> simp [ih]

theorem tallyDictHist_eq [DecidableEq κ] (key : α → Option (κ × Nat)) (l : List α) :
    tallyDictHist key l
      = (l.filterMap key).foldl (fun d q => dictHistBump d q.1 q.2) [] := by
  show l.foldl _ [] = _
  generalize ([] : Dict κ (Nat → Nat)) = init
  induction l generalizing init with
  | nil => rfl
  | cons a l ih =>
    simp only [List.foldl_cons, List.filterMap_cons]
    cases h : key a with
    | none => simp [ih]
    | some q => cases q with | mk k i => simp [ih]

theorem tallyNest_eq [DecidableEq κ] [DecidableEq κ'] (key : α → Option (κ × κ'))
    (l : List α) :
    tallyNest key l = (l.filterMap key).foldl (fun d q => nestBump d q.1 q.2) [] := by
  show l.foldl _ [] = _
  generalize ([] : Dict κ (Dict κ' Nat)) = init
  induction l generalizing init with
  | nil => rfl
  | cons a l ih =>
    simp only [List.foldl_cons, List.filterMap_cons]
    cases h : key a with
    | none => simp [ih]
    | some q => cases q with | mk k k2 => simp [ih]

/-! ### Counter-object lemmas -/

theorem getv?_bump [DecidableEq κ] (d : Dict κ Nat) (k k' : κ) :
    (bump d k).getv? k'
      = if k' = k then some ((d.getv? k).getD 0 + 1) else d.getv? k' := by
  induction d with
  | nil =>
    simp only [bump, Dict.getv?]
    split_ifs with h1 h2 <;> simp_all [eq_comm]
  | cons p rest ih =>
    obtain ⟨a, c⟩ := p
    simp only [bump, Dict.getv?]
    split_ifs with h1 h2 <;> simp_all [Dict.getv?, eq_comm]

theorem getv?_foldl_bump [DecidableEq κ] (ks : List κ) (d : Dict κ Nat) (k : κ) :
    (ks.foldl bump d).getv? k =
      match d.getv? k with
      | some c => some (c + ks.count k)
      | none => if ks.count k = 0 then none else some (ks.count k) := by
  induction ks generalizing d with
  | nil => cases hd : d.getv? k <;> simp [hd]
  | cons a ks ih =>
    rw [List.foldl_cons, ih, getv?_bump]
    by_cases hka : k = a
    · subst hka
      rw [if_pos rfl, List.count_cons_self]
      cases d.getv? k <;> simp <;> omega
    · rw [if_neg hka, List.count_cons_of_ne hka]

theorem getv?_tally [DecidableEq κ] (key : α → Option κ) (l : List α) (k : κ) :
    (tally key l).getv? k =
      if (l.filterMap key).count k = 0 then none
      else some ((l.filterMap key).count k) := by
  rw [tally_eq, getv?_foldl_bump]
  rfl

theorem keys_bump [DecidableEq κ] (d : Dict κ Nat) (k : κ) :
    (bump d k).map Prod.fst = insertSet (d.map Prod.fst) k := by
  induction d with
  | nil => simp [bump, insertSet]
  | cons p rest ih =>
    obtain ⟨a, c⟩ := p
    by_cases hak : a = k
    · subst hak
      simp [bump, insertSet]
    · simp only [bump, if_neg hak, List.map_cons, ih, insertSet]
      by_cases hk : k ∈ rest.map Prod.fst
      · rw [if_pos hk, if_pos (List.mem_cons_of_mem a hk)]
      · rw [if_neg hk, if_neg ?_, List.cons_append]
        intro hmem
        rcases List.mem_cons.mp hmem with h1 | h1
        · exact hak h1.symm
        · exact hk h1

theorem keys_foldl_bump [DecidableEq κ] (ks : List κ) (d : Dict κ Nat) :
    (ks.foldl bump d).map Prod.fst = ks.foldl insertSet (d.map Prod.fst) := by
  induction ks generalizing d with
  | nil => rfl
  | cons a ks ih => rw [List.foldl_cons, List.foldl_cons, ih, keys_bump]

theorem keys_tally [DecidableEq κ] (key : α → Option κ) (l : List α) :
    (tally key l).map Prod.fst = firstSeen (l.filterMap key) := by
  rw [tally_eq, keys_foldl_bump]
  rfl

theorem sum_bump [DecidableEq κ] (d : Dict κ Nat) (k : κ) :
    ((bump d k).map Prod.snd).sum = (d.map Prod.snd).sum + 1 := by
  induction d with
  | nil => simp [bump]
  | cons p rest ih =>
    obtain ⟨a, c⟩ := p
    by_cases hak : a = k <;> simp [bump, hak, ih] <;> omega

theorem sum_foldl_bump [DecidableEq κ] (ks : List κ) (d : Dict κ Nat) :
    ((ks.foldl bump d).map Prod.snd).sum = (d.map Prod.snd).sum + ks.length := by
  induction ks generalizing d with
  | nil => simp
  | cons a ks ih =>
    rw [List.foldl_cons, ih, sum_bump]
    simp
    omega

theorem sum_tally [DecidableEq κ] (key : α → Option κ) (l : List α) :
    ((tally key l).map Prod.snd).sum = (l.filterMap key).length := by
  rw [tally_eq, sum_foldl_bump]
  simp

/-! ### First-seen set lemmas -/

theorem mem_insertSet [DecidableEq κ] (s : List κ) (a x : κ) :
    x ∈ insertSet s a ↔ x ∈ s ∨ x = a := by
  by_cases h : a ∈ s
  · simp only [insertSet, if_pos h]
    constructor
    · exact fun hx => Or.inl hx
    · rintro (hx | rfl) <;> assumption
  · simp [insertSet, if_neg h]

theorem nodup_insertSet [DecidableEq κ] (s : List κ) (a : κ) (hs : s.Nodup) :
    (insertSet s a).Nodup := by
  by_cases h : a ∈ s
  · simpa [insertSet, if_pos h] using hs
  · simp [insertSet, if_neg h, List.nodup_append, hs, h]

theorem mem_foldl_insertSet [DecidableEq κ] (ks : List κ) (s : List κ) (x : κ) :
    x ∈ ks.foldl insertSet s ↔ x ∈ s ∨ x ∈ ks := by
  induction ks generalizing s with
  | nil => simp
  | cons a ks ih =>
    rw [List.foldl_cons, ih, mem_insertSet]
    simp only [List.mem_cons]
    tauto

theorem nodup_foldl_insertSet [DecidableEq κ] (ks : List κ) (s : List κ) (hs : s.Nodup) :
    (ks.foldl insertSet s).Nodup := by
  induction ks generalizing s with
  | nil => exact hs
  | cons a ks ih => exact ih _ (nodup_insertSet s a hs)

theorem mem_firstSeen [DecidableEq κ] (ks : List κ) (x : κ) :
    x ∈ firstSeen ks ↔ x ∈ ks := by
  rw [firstSeen, mem_foldl_insertSet]
  simp

theorem nodup_firstSeen [DecidableEq κ] (ks : List κ) : (firstSeen ks).Nodup :=
  nodup_foldl_insertSet ks [] List.nodup_nil

theorem length_firstSeen [DecidableEq κ] (ks : List κ) :
    (firstSeen ks).length = ks.toFinset.card := by
  have h1 : (firstSeen ks).toFinset = ks.toFinset := by
    ext x
    simp [List.mem_toFinset, mem_firstSeen]
  rw [← h1, List.toFinset_card_of_nodup (nodup_firstSeen ks)]

/-! ### Lookup in a dict with distinct keys -/

theorem getv?_eq_of_mem [DecidableEq κ] {d : Dict κ α} (hd : (d.map Prod.fst).Nodup)
    {p : κ × α} (hp : p ∈ d) : d.getv? p.1 = some p.2 := by
  induction d with
  | nil => cases hp
  | cons q rest ih =>
    obtain ⟨k, v⟩ := q
    simp only [List.map_cons, List.nodup_cons] at hd
    rcases List.mem_cons.mp hp with rfl | hrest
    · simp [Dict.getv?]
    · have hk : k ≠ p.1 := by
        intro hkp
        exact hd.1 (hkp ▸ List.mem_map_of_mem Prod.fst hrest)
      simp only [Dict.getv?, if_neg hk]
      exact ih hd.2 hrest

/-! ### Histogram lemmas -/

theorem foldl_histBump_apply (is : List Nat) (h0 : Nat → Nat) (j : Nat) :
    (is.foldl histBump h0) j = h0 j + is.count j := by
  induction is generalizing h0 with
  | nil => simp
  | cons i is ih =>
    rw [List.foldl_cons, ih, List.count_cons]
    simp only [histBump, beq_iff_eq]
    by_cases hji : j = i
    · subst hji
      rw [if_pos rfl, if_pos rfl]
      omega
    · rw [if_neg hji, if_neg (fun h => hji h.symm)]
      omega

theorem tallyHist_apply (key : α → Option Nat) (l : List α) (j : Nat) :
    tallyHist key l j = (l.filterMap key).count j := by
  rw [tallyHist_eq, foldl_histBump_apply]
  omega

/-! ### Per-key histogram object lemmas -/

theorem getv?_dictHistBump [DecidableEq κ] (d : Dict κ (Nat → Nat)) (k : κ) (i : Nat)
    (k' : κ) :
    (dictHistBump d k i).getv? k'
      = if k' = k then some (histBump ((d.getv? k).getD (fun _ => 0)) i)
        else d.getv? k' := by
  induction d with
  | nil =>
    simp only [dictHistBump, Dict.getv?]
    split_ifs with h1 h2 <;> simp_all [eq_comm]
  | cons p rest ih =>
    obtain ⟨a, h⟩ := p
    simp only [dictHistBump, Dict.getv?]
    split_ifs with h1 h2 <;> simp_all [Dict.getv?, eq_comm]

theorem sum_dictHistBump [DecidableEq κ] (d : Dict κ (Nat → Nat)) (k : κ) (i : Nat)
    (j : Nat) :
    ((dictHistBump d k i).map (fun p => p.2 j)).sum
      = (d.map (fun p => p.2 j)).sum + (if j = i then 1 else 0) := by
  induction d with
  | nil => simp [dictHistBump, histBump]
  | cons p rest ih =>
    obtain ⟨a, h⟩ := p
    simp only [dictHistBump]
    by_cases hak : a = k
    · simp only [if_pos hak, List.map_cons, List.sum_cons, histBump]
      by_cases hji : j = i
      · simp only [if_pos hji]
        omega
      · simp only [if_neg hji]
        omega
    · simp only [if_neg hak, List.map_cons, List.sum_cons, ih]
      omega

theorem sum_foldl_dictHist [DecidableEq κ] (ps : List (κ × Nat))
    (d : Dict κ (Nat → Nat)) (j : Nat) :
    ((ps.foldl (fun d q => dictHistBump d q.1 q.2) d).map (fun p => p.2 j)).sum
      = (d.map (fun p => p.2 j)).sum + ps.countP (fun q => q.2 = j) := by
  induction ps generalizing d with
  | nil => simp
  | cons q ps ih =>
    rw [List.foldl_cons, ih, sum_dictHistBump, List.countP_cons]
    by_cases hji : j = q.2
    · simp [hji]
      omega
    · rw [if_neg hji, if_neg (by simpa [eq_comm] using hji)]
      omega

theorem sum_tallyDictHist [DecidableEq κ] (key : α → Option (κ × Nat)) (l : List α)
    (j : Nat) :
    ((tallyDictHist key l).map (fun p => p.2 j)).sum
      = (l.filterMap key).countP (fun q => q.2 = j) := by
  rw [tallyDictHist_eq, sum_foldl_dictHist]
  simp

theorem apply_foldl_dictHist [DecidableEq κ] (ps : List (κ × Nat))
    (d : Dict κ (Nat → Nat)) (k : κ) (j : Nat) :
    (((ps.foldl (fun d q => dictHistBump d q.1 q.2) d).getv? k).getD (fun _ => 0)) j
      = ((d.getv? k).getD (fun _ => 0)) j + ps.count (k, j) := by
  induction ps generalizing d with
  | nil => simp
  | cons q ps ih =>
    obtain ⟨a, i⟩ := q
    rw [List.foldl_cons, ih, getv?_dictHistBump, List.count_cons]
    simp only [beq_iff_eq, Prod.mk.injEq]
    by_cases hka : k = a
    · subst hka
      rw [if_pos rfl, Option.getD_some]
      simp only [histBump]
      by_cases hji : j = i
      · rw [if_pos hji, if_pos (by simp [hji.symm])]
        omega
      · rw [if_neg hji, if_neg (fun h => hji h.2.symm)]
        omega
    · rw [if_neg hka, if_neg (fun h => hka h.1.symm)]
      omega

theorem apply_tallyDictHist [DecidableEq κ] (key : α → Option (κ × Nat)) (l : List α)
    (k : κ) (j : Nat) :
    (((tallyDictHist key l).getv? k).getD (fun _ => 0)) j
      = (l.filterMap key).count (k, j) := by
  rw [tallyDictHist_eq, apply_foldl_dictHist]
  simp [Dict.getv?]

/-! ### Nested counter object lemmas -/

theorem getv?_nestBump [DecidableEq κ] [DecidableEq κ'] (D : Dict κ (Dict κ' Nat))
    (k : κ) (k2 : κ') (k' : κ) :
    (nestBump D k k2).getv? k'
      = if k' = k then some (bump ((D.getv? k).getD []) k2) else D.getv? k' := by
  induction D with
  | nil =>
    simp only [nestBump, Dict.getv?]
    split_ifs with h1 h2 <;> simp_all [bump, eq_comm]
  | cons p rest ih =>
    obtain ⟨a, m⟩ := p
    simp only [nestBump, Dict.getv?]
    split_ifs with h1 h2 <;> simp_all [Dict.getv?, eq_comm]

theorem lookup2_eq [DecidableEq κ] [DecidableEq κ'] (D : Dict κ (Dict κ' Nat)) (k : κ)
    (k2 : κ') :
    lookup2 D k k2 = ((D.getv? k).getD []).getv? k2 := by
  rw [lookup2]
  cases D.getv? k <;> simp [Dict.getv?]

theorem lookup2_foldl_nest [DecidableEq κ] [DecidableEq κ'] (ps : List (κ × κ'))
    (D : Dict κ (Dict κ' Nat)) (k : κ) (k2 : κ') :
    ((lookup2 (ps.foldl (fun d q => nestBump d q.1 q.2) D) k k2).getD 0
        = (lookup2 D k k2).getD 0 + ps.count (k, k2))
      ∧ ((lookup2 (ps.foldl (fun d q => nestBump d q.1 q.2) D) k k2).isSome
        = ((lookup2 D k k2).isSome || decide (0 < ps.count (k, k2)))) := by
  induction ps generalizing D with
  | nil => simp
  | cons q ps ih =>
    obtain ⟨a, b⟩ := q
    rw [List.foldl_cons]
    obtain ⟨ih1, ih2⟩ := ih (nestBump D a b)
    have hl : lookup2 (nestBump D a b) k k2
        = if k = a ∧ k2 = b then some ((lookup2 D k k2).getD 0 + 1)
          else lookup2 D k k2 := by
      simp only [lookup2_eq]
      rw [getv?_nestBump]
      by_cases hka : k = a
      · subst hka
        rw [if_pos rfl, Option.getD_some, getv?_bump]
        by_cases hkb : k2 = b
        · subst hkb
          rw [if_pos rfl, if_pos ⟨rfl, rfl⟩]
        · rw [if_neg hkb, if_neg (fun h => hkb h.2)]
      · rw [if_neg hka, if_neg (fun h => hka h.1)]
    rw [ih1, ih2, List.count_cons, hl]
    simp only [beq_iff_eq, Prod.mk.injEq]
    by_cases hka : k = a
    · by_cases hkb : k2 = b
      · rw [if_pos ⟨hka, hkb⟩, if_pos ⟨hka.symm, hkb.symm⟩]
        constructor
        · simp only [Option.getD_some]
          omega
        · simp
      · rw [if_neg (fun h => hkb h.2), if_neg (fun h => hkb h.2.symm)]
        constructor
        · omega
        · simp
    · rw [if_neg (fun h => hka h.1), if_neg (fun h => hka h.1.symm)]
      constructor
      · omega
      · simp

theorem lookup2_tallyNest [DecidableEq κ] [DecidableEq κ'] (key : α → Option (κ × κ'))
    (l : List α) (k : κ) (k2 : κ') :
    lookup2 (tallyNest key l) k k2
      = if (l.filterMap key).count (k, k2) = 0 then none
        else some ((l.filterMap key).count (k, k2)) := by
  rw [tallyNest_eq]
  obtain ⟨h1, h2⟩ := lookup2_foldl_nest (l.filterMap key) [] k k2
  have hD : lookup2 ([] : Dict κ (Dict κ' Nat)) k k2 = none := rfl
  rw [hD] at h1 h2
  simp only [Option.getD_none, Option.isSome_none, Bool.false_or, Nat.zero_add] at h1 h2
  cases ho : lookup2 (List.foldl (fun d q => nestBump d q.1 q.2) [] (l.filterMap key)) k k2 with
  | none =>
    rw [ho] at h2
    have hc : ¬ 0 < (l.filterMap key).count (k, k2) := by
      simpa using h2.symm
    rw [if_pos (by omega)]
  | some v =>
    rw [ho] at h1 h2
    simp only [Option.getD_some] at h1
    have hc : 0 < (l.filterMap key).count (k, k2) := by
      simpa using h2.symm
    rw [if_neg (by omega), h1]

/-! ### Counting bridges -/

theorem count_filterMap [DecidableEq β] (key : α → Option β) (l : List α) (b : β) :
    (l.filterMap key).count b = l.countP (fun a => decide (key a = some b)) := by
  induction l with
  | nil => simp
  | cons a l ih =>
    rw [List.filterMap_cons, List.countP_cons]
    cases h : key a with
    | none => simp [h, ih]
    | some c =>
      rw [List.count_cons, ih]
      by_cases hcb : c = b
      · subst hcb
        simp [h]
      · simp [h, hcb, Option.some_inj]

theorem length_filterMap_eq_countP (key : α → Option β) (l : List α) :
    (l.filterMap key).length = l.countP (fun a => (key a).isSome) := by
  induction l with
  | nil => simp
  | cons a l ih =>
    rw [List.filterMap_cons, List.countP_cons]
    cases h : key a <;> simp [h, ih]

theorem countP_filterMap (key : α → Option β) (l : List α) (q : β → Bool) :
    (l.filterMap key).countP q
      = l.countP (fun a => match key a with | some b => q b | none => false) := by
  induction l with
  | nil => simp
  | cons a l ih =>
    cases h : key a <;> simp [List.filterMap_cons, h, List.countP_cons, ih]

/-! ### Indicator sums over `Finset.range` -/

theorem sum_range_countP_key (n : Nat) (key : α → Option Nat) (l : List α)
    (hb : ∀ a ∈ l, ∀ k, key a = some k → k < n) :
    (∑ j ∈ Finset.range n, l.countP (fun a => decide (key a = some j)))
      = l.countP (fun a => (key a).isSome) := by
  induction l with
  | nil => simp
  | cons a l ih =>
    simp only [List.countP_cons]
    rw [Finset.sum_add_distrib, ih (fun x hx => hb x (List.mem_cons_of_mem a hx))]
    congr 1
    cases h : key a with
    | none => simp [h]
    | some k =>
      have hk : k < n := hb a (List.mem_cons_self a l) k h
      simp only [h, Option.some_inj, Option.isSome_some, if_true, decide_eq_true_eq]
      rw [Finset.sum_ite_eq (Finset.range n) k (fun _ => 1)]
      simp [hk]

/-! ### Day-range and clock lemmas -/

theorem mem_dayRange (lo hi d : Int) : d ∈ dayRange lo hi ↔ lo ≤ d ∧ d ≤ hi := by
  simp only [dayRange, List.mem_map, List.mem_range]
  constructor
  · rintro ⟨i, hi', rfl⟩
    omega
  · rintro ⟨h1, h2⟩
    exact ⟨(d - lo).toNat, by omega, by omega⟩

theorem nodup_dayRange (lo hi : Int) : (dayRange lo hi).Nodup := by
  refine List.Nodup.map ?_ (List.nodup_range _)
  intro a b h
  have h' : lo + (a : Int) = lo + (b : Int) := h
  omega

theorem length_dayRange (lo hi : Int) : (dayRange lo hi).length = (hi + 1 - lo).toNat := by
  simp [dayRange]

theorem getDay_lt (ofs : Int → Int) (t : Int) : getDay ofs t < 7 := by
  have h1 : 0 ≤ ((t + ofs t).fdiv 86400000 + 4).emod 7 := Int.emod_nonneg _ (by norm_num)
  have h2 : ((t + ofs t).fdiv 86400000 + 4).emod 7 < 7 := Int.emod_lt_of_pos _ (by norm_num)
  simp only [getDay]
  omega

theorem getHours_lt (ofs : Int → Int) (t : Int) : getHours ofs t < 24 := by
  have h1 : 0 ≤ ((t + ofs t).fdiv 3600000).emod 24 := Int.emod_nonneg _ (by norm_num)
  have h2 : ((t + ofs t).fdiv 3600000).emod 24 < 24 := Int.emod_lt_of_pos _ (by norm_num)
  simp only [getHours]
  omega

theorem utcDay_mono {a b : Int} (h : a ≤ b) : utcDay a ≤ utcDay b := by
  simp only [utcDay]
  rw [Int.fdiv_eq_ediv _ (by norm_num), Int.fdiv_eq_ediv _ (by norm_num)]
  exact Int.ediv_le_ediv (by norm_num) h

/-! ### Head and last of a list sorted by a key -/

theorem head_min_of_sorted (g : α → Int) (l : List α)
    (hl : l.Pairwise (fun a b => g a ≤ g b)) (h : l ≠ []) :
    ∀ f ∈ l, g (l.head h) ≤ g f := by
  cases l with
  | nil => exact absurd rfl h
  | cons x xs =>
    intro f hf
    rcases List.mem_cons.mp hf with rfl | hfs
    · exact le_refl _
    · exact (List.pairwise_cons.mp hl).1 f hfs

theorem getLast_max_of_sorted (g : α → Int) :
    ∀ (l : List α), l.Pairwise (fun a b => g a ≤ g b) → ∀ (h : l ≠ []),
      ∀ f ∈ l, g f ≤ g (l.getLast h)
  | [], _, h => absurd rfl h
  | [x], _, _ => by
    intro f hf
    rcases List.mem_cons.mp hf with rfl | hfs
    · simp [List.getLast]
    · cases hfs
  | x :: y :: ys, hl, h => by
    intro f hf
    have hne : (y :: ys) ≠ [] := List.cons_ne_nil y ys
    rw [List.getLast_cons hne]
    rcases List.mem_cons.mp hf with rfl | hfs
    · exact le_trans ((List.pairwise_cons.mp hl).1 _ (List.mem_cons_self y ys))
        (getLast_max_of_sorted g (y :: ys) (List.pairwise_cons.mp hl).2 hne y
          (List.mem_cons_self y ys))
    · exact getLast_max_of_sorted g (y :: ys) (List.pairwise_cons.mp hl).2 hne f hfs

/-! ### Summing per-day counts over the label range -/

theorem sum_map_indicator (l : List β) (q : β → Bool) :
    (l.map (fun d => if q d then 1 else 0)).sum = l.countP q := by
  induction l with
  | nil => simp
  | cons d l ih =>
    rw [List.map_cons, List.sum_cons, List.countP_cons, ih]
    omega

theorem sum_map_add_distrib (l : List β) (f g : β → Nat) :
    (l.map (fun d => f d + g d)).sum = (l.map f).sum + (l.map g).sum := by
  induction l with
  | nil => simp
  | cons d l ih =>
    simp only [List.map_cons, List.sum_cons, ih]
    omega

theorem sum_over_labels (p : Flight → Bool) :
    ∀ (fs : List Flight) (labels : List Int), labels.Nodup →
      (∀ f ∈ fs, p f = true → utcDay f.landing_time ∈ labels) →
      (labels.map (fun d =>
        fs.countP (fun f => p f && (utcDay f.landing_time == d)))).sum = fs.countP p
  | [], labels, _, _ => by simp
  | f :: fs, labels, hnd, hin => by
    have hrec := sum_over_labels p fs labels hnd
      (fun x hx hp => hin x (List.mem_cons_of_mem f hx) hp)
    have hsplit : ∀ d : Int,
        (f :: fs).countP (fun f => p f && (utcDay f.landing_time == d))
          = fs.countP (fun f => p f && (utcDay f.landing_time == d))
            + (if p f && (utcDay f.landing_time == d) then 1 else 0) := by
      intro d
      rw [List.countP_cons]
    have hmap : (labels.map (fun d =>
        (f :: fs).countP (fun f => p f && (utcDay f.landing_time == d)))).sum
        = (labels.map (fun d =>
            fs.countP (fun f => p f && (utcDay f.landing_time == d)))).sum
          + (labels.map (fun d =>
              if p f && (utcDay f.landing_time == d) then 1 else 0)).sum := by
      rw [← sum_map_add_distrib]
      congr 1
      exact List.map_congr_left (fun d _ => hsplit d)
    rw [hmap, hrec, List.countP_cons]
    congr 1
    rw [sum_map_indicator]
    cases hp : p f with
    | false => simp
    | true =>
      have hmem : utcDay f.landing_time ∈ labels :=
        hin f (List.mem_cons_self f fs) hp
      have hcount : labels.count (utcDay f.landing_time) = 1 :=
        List.count_eq_one_of_mem hnd hmem
      simp only [hp, Bool.true_and, if_pos rfl]
      rw [← hcount, List.count]
      exact List.countP_congr (fun d _ => by
        simp only [beq_iff_eq]
        exact eq_comm)

/-! ### Unfolding the aggregation result on a non-empty list -/

theorem landingsByDay_cons (ofs : Int → Int) (f0 : Flight) (rest : List Flight) :
    (aggregateFlightData ofs (f0 :: rest)).landingsByDay
      = tallyHist (dayKey ofs) (f0 :: rest) := rfl

theorem landingsByHour_cons (ofs : Int → Int) (f0 : Flight) (rest : List Flight) :
    (aggregateFlightData ofs (f0 :: rest)).landingsByHour
      = tallyHist (hourKey ofs) (f0 :: rest) := rfl

theorem airportLandingsByDay_cons (ofs : Int → Int) (f0 : Flight) (rest : List Flight) :
    (aggregateFlightData ofs (f0 :: rest)).airportLandingsByDay
      = tallyDictHist (destDayKey ofs) (f0 :: rest) := rfl

theorem airportLandingsByHour_cons (ofs : Int → Int) (f0 : Flight) (rest : List Flight) :
    (aggregateFlightData ofs (f0 :: rest)).airportLandingsByHour
      = tallyDictHist (destHourKey ofs) (f0 :: rest) := rfl

theorem arrivalsFrom_cons (ofs : Int → Int) (f0 : Flight) (rest : List Flight) :
    (aggregateFlightData ofs (f0 :: rest)).arrivalsFrom
      = tallyNest arrivalKey (f0 :: rest) := rfl

theorem totalFlightsProcessed_cons (ofs : Int → Int) (f0 : Flight) (rest : List Flight) :
    (aggregateFlightData ofs (f0 :: rest)).totalFlightsProcessed
      = (f0 :: rest).length := rfl

/-! ### Key-guard bridges -/

theorem dayKey_isSome (ofs : Int → Int) (f : Flight) :
    (dayKey ofs f).isSome = counted f := by
  by_cases h : counted f = true <;> simp [dayKey, h]

theorem destKey_isSome (f : Flight) : (destKey f).isSome = counted f := by
  by_cases h : counted f = true <;> simp [destKey, h]

theorem countP_isSome_dayKey (ofs : Int → Int) (flights : List Flight) :
    flights.countP (fun f => (dayKey ofs f).isSome) = flights.countP counted :=
  List.countP_congr (fun f _ => by rw [dayKey_isSome])

theorem countP_isSome_destKey (flights : List Flight) :
    flights.countP (fun f => (destKey f).isSome) = flights.countP counted :=
  List.countP_congr (fun f _ => by rw [destKey_isSome])

/-! ### Indicator sum over the second components of keyed pairs -/

theorem sum_range_countP_snd {κ : Type} (n : Nat) :
    ∀ (ps : List (κ × Nat)), (∀ q ∈ ps, q.2 < n) →
      (∑ d ∈ Finset.range n, ps.countP (fun q => q.2 = d)) = ps.length
  | [], _ => by simp
  | q :: ps, hb => by
    simp only [List.countP_cons]
    rw [Finset.sum_add_distrib,
      sum_range_countP_snd n ps (fun x hx => hb x (List.mem_cons_of_mem q hx))]
    have hq : q.2 < n := hb q (List.mem_cons_self q ps)
    have hind : (∑ d ∈ Finset.range n, if (fun q : κ × Nat => decide (q.2 = d)) q = true
        then 1 else 0) = 1 := by
      simp only [decide_eq_true_eq]
      rw [Finset.sum_ite_eq (Finset.range n) q.2 (fun _ => 1)]
      simp [hq]
    rw [hind]
    simp

/-! ### The day/hour histogram totals -/

theorem sum_landingsByDay (ofs : Int → Int) (flights : List Flight) :
    (∑ d ∈ Finset.range 7, (aggregateFlightData ofs flights).landingsByDay d)
      = flights.countP counted := by
  cases flights with
  | nil => simp [aggregateFlightData, emptyAggResult]
  | cons f0 rest =>
    rw [landingsByDay_cons]
    have h1 : ∀ d, tallyHist (dayKey ofs) (f0 :: rest) d
        = (f0 :: rest).countP (fun f => decide (dayKey ofs f = some d)) := by
      intro d
      rw [tallyHist_apply, count_filterMap]
    calc (∑ d ∈ Finset.range 7, tallyHist (dayKey ofs) (f0 :: rest) d)
        = (∑ d ∈ Finset.range 7,
            (f0 :: rest).countP (fun f => decide (dayKey ofs f = some d))) := by
          exact Finset.sum_congr rfl (fun d _ => h1 d)
      _ = (f0 :: rest).countP (fun f => (dayKey ofs f).isSome) := by
          refine sum_range_countP_key 7 (dayKey ofs) (f0 :: rest) ?_
          intro f _ k hk
          have : counted f = true ∧ k = getDay ofs f.landing_time := by
            by_cases h : counted f = true <;> simp_all [dayKey]
          exact this.2 ▸ getDay_lt ofs f.landing_time
      _ = (f0 :: rest).countP counted := countP_isSome_dayKey ofs (f0 :: rest)

theorem sum_airportCounts (flights : List Flight) :
    ((tally destKey flights).map Prod.snd).sum = flights.countP counted := by
  rw [sum_tally, length_filterMap_eq_countP, countP_isSome_destKey]

theorem sum_map_finset_sum {β : Type _} (l : List β) (n : Nat) (f : β → Nat → Nat) :
    (l.map (fun p => ∑ d ∈ Finset.range n, f p d)).sum
      = ∑ d ∈ Finset.range n, (l.map (fun p => f p d)).sum := by
  induction l with
  | nil => simp
  | cons p l ih =>
    simp only [List.map_cons, List.sum_cons, ih]
    rw [Finset.sum_add_distrib]

theorem sum_airportLandingsByDay (ofs : Int → Int) (flights : List Flight) :
    ((aggregateFlightData ofs flights).airportLandingsByDay.map
        (fun p => ∑ d ∈ Finset.range 7, p.2 d)).sum
      = flights.countP counted := by
  cases flights with
  | nil => simp [aggregateFlightData, emptyAggResult]
  | cons f0 rest =>
    rw [airportLandingsByDay_cons, sum_map_finset_sum]
    have h1 : ∀ d, ((tallyDictHist (destDayKey ofs) (f0 :: rest)).map
        (fun p => p.2 d)).sum
        = ((f0 :: rest).filterMap (destDayKey ofs)).countP (fun q => q.2 = d) := by
      intro d
      rw [sum_tallyDictHist]
    calc (∑ d ∈ Finset.range 7, ((tallyDictHist (destDayKey ofs) (f0 :: rest)).map
            (fun p => p.2 d)).sum)
        = (∑ d ∈ Finset.range 7,
            ((f0 :: rest).filterMap (destDayKey ofs)).countP (fun q => q.2 = d)) :=
          Finset.sum_congr rfl (fun d _ => h1 d)
      _ = ((f0 :: rest).filterMap (destDayKey ofs)).length := by
          refine sum_range_countP_snd 7 _ ?_
          intro q hq
          obtain ⟨f, _, hf⟩ := List.mem_filterMap.mp hq
          have : counted f = true ∧ q = (destOf f, getDay ofs f.landing_time) := by
            by_cases h : counted f = true <;> simp_all [destDayKey]
          rw [this.2]
          exact getDay_lt ofs f.landing_time
      _ = (f0 :: rest).countP counted := by
          rw [length_filterMap_eq_countP]
          refine List.countP_congr (fun f _ => ?_)
          by_cases h : counted f = true <;> simp [destDayKey, h]

/-! ## Claim theorems -/

/-- Claim C1, counterexample: a row with a parseable landing time but no
destination is accepted by `processInitialData` and counted in
`totalFlightsProcessed`, yet the aggregation loop skips it, so the 7
day-of-week buckets sum to 0 while the list has length 1. -/
theorem claimC1_counterexample :
    processInitialData [c1raw]
        = .ok { rawFlights := [c1flight], earliestTime := 0, latestTime := 0 }
      ∧ (aggregateFlightData zeroOffset [c1flight]).totalFlightsProcessed = 1
      ∧ (∑ d ∈ Finset.range 7,
          (aggregateFlightData zeroOffset [c1flight]).landingsByDay d) = 0 := by
  refine ⟨by rfl, rfl, by decide⟩

/-- Claim C1 (amended): `totalFlightsProcessed` is the input length, and the
7 entries of the day-of-week histogram sum to the number of rows whose
`icao` and `destination` are both truthy (the rows the aggregation loop
processes), which may be fewer than `totalFlightsProcessed`. -/
theorem claimC1_amended (ofs : Int → Int) (flights : List Flight) :
    (aggregateFlightData ofs flights).totalFlightsProcessed = flights.length
    ∧ (∑ d ∈ Finset.range 7, (aggregateFlightData ofs flights).landingsByDay d)
        = flights.countP counted := by
  constructor
  · cases flights with
    | nil => rfl
    | cons f0 rest => rfl
  · exact sum_landingsByDay ofs flights

/-- Claim C2, counterexample: with a single destination-less row the
per-destination counts sum to 0 while `totalFlightsProcessed` is 1. -/
theorem claimC2_counterexample :
    ((tally destKey [c2flight]).map Prod.snd).sum = 0
      ∧ (aggregateFlightData zeroOffset [c2flight]).totalFlightsProcessed = 1 := by
  refine ⟨by decide, rfl⟩

/-- Claim C2 (amended): the per-destination landing counts accumulated in
`airportCounts` (`tally destKey`), and equivalently the summed 7-bucket
totals of each destination's `airportLandingsByDay` histogram, add up to
the number of rows with truthy `icao` and `destination` — not to
`totalFlightsProcessed` when some rows lack those fields. -/
theorem claimC2_amended (ofs : Int → Int) (flights : List Flight) :
    ((tally destKey flights).map Prod.snd).sum = flights.countP counted
    ∧ ((aggregateFlightData ofs flights).airportLandingsByDay.map
        (fun p => ∑ d ∈ Finset.range 7, p.2 d)).sum = flights.countP counted :=
  ⟨sum_airportCounts flights, sum_airportLandingsByDay ofs flights⟩

/-- Claim C8: each bucket of the overall day-of-week (resp. hour-of-day)
histogram equals the sum of that bucket over all per-destination
histograms. -/
theorem claimC8 (ofs : Int → Int) (flights : List Flight) (d h : Nat) :
    (aggregateFlightData ofs flights).landingsByDay d
        = ((aggregateFlightData ofs flights).airportLandingsByDay.map
            (fun p => p.2 d)).sum
    ∧ (aggregateFlightData ofs flights).landingsByHour h
        = ((aggregateFlightData ofs flights).airportLandingsByHour.map
            (fun p => p.2 h)).sum := by
  cases flights with
  | nil => exact ⟨rfl, rfl⟩
  | cons f0 rest =>
    constructor
    · rw [landingsByDay_cons, airportLandingsByDay_cons, tallyHist_apply,
        count_filterMap, sum_tallyDictHist, countP_filterMap]
      refine List.countP_congr (fun f _ => ?_)
      by_cases hc : counted f = true <;>
        simp [dayKey, destDayKey, hc]
    · rw [landingsByHour_cons, airportLandingsByHour_cons, tallyHist_apply,
        count_filterMap, sum_tallyDictHist, countP_filterMap]
      refine List.countP_congr (fun f _ => ?_)
      by_cases hc : counted f = true <;>
        simp [hourKey, destHourKey, hc]

/-- Claim C10: a missing (`null`/`undefined`) or empty flight list yields
the default structure: zero totals, all-zero histograms, zero days, and
every map and list empty. -/
theorem claimC10 (ofs : Int → Int) :
    aggregateFlightDataOpt ofs none = emptyAggResult
    ∧ aggregateFlightDataOpt ofs (some []) = emptyAggResult
    ∧ emptyAggResult.totalFlightsProcessed = 0
    ∧ (∀ d, emptyAggResult.landingsByDay d = 0)
    ∧ (∀ h, emptyAggResult.landingsByHour h = 0)
    ∧ emptyAggResult.numberOfDays = 0
    ∧ emptyAggResult.uniqueAircraftCount = 0
    ∧ emptyAggResult.uniqueCallsignCount = 0
    ∧ emptyAggResult.uniqueRegistrationCount = 0
    ∧ emptyAggResult.topCallsigns = []
    ∧ emptyAggResult.topIcaos = []
    ∧ emptyAggResult.topRegistrations = []
    ∧ emptyAggResult.allSortedCallsigns = []
    ∧ emptyAggResult.allSortedIcaos = []
    ∧ emptyAggResult.allSortedRegistrations = []
    ∧ emptyAggResult.sortedAirports = []
    ∧ emptyAggResult.sortedPairs = []
    ∧ emptyAggResult.airportLandingsByDay = []
    ∧ emptyAggResult.airportLandingsByHour = []
    ∧ emptyAggResult.pairLandingsByDay = []
    ∧ emptyAggResult.pairLandingsByHour = []
    ∧ emptyAggResult.arrivalsFrom = []
    ∧ emptyAggResult.allAirports = []
    ∧ emptyAggResult.allPairs = []
    ∧ emptyAggResult.dailyLabels = []
    ∧ emptyAggResult.dailyUniqueAircraftCounts = []
    ∧ emptyAggResult.dailyTotalLandings = []
    ∧ emptyAggResult.airportDailyActivity = []
    ∧ emptyAggResult.pairDailyActivity = [] :=
  ⟨rfl, rfl, rfl, fun _ => rfl, fun _ => rfl, rfl, rfl, rfl, rfl, rfl, rfl, rfl,
    rfl, rfl, rfl, rfl, rfl, rfl, rfl, rfl, rfl, rfl, rfl, rfl, rfl, rfl, rfl,
    rfl, rfl⟩

theorem count_filterMap_pair {κ κ' : Type} [DecidableEq κ] [DecidableEq κ']
    (key : α → Option (κ × κ')) (l : List α) (k : κ) (k2 : κ') :
    (l.filterMap key).count (k, k2)
      = l.countP (fun a => decide (key a = some (k, k2))) := by
  induction l with
  | nil => simp
  | cons a l ih =>
    rw [List.filterMap_cons, List.countP_cons]
    cases h : key a with
    | none => simp [h, ih]
    | some c =>
      rw [List.count_cons, ih]
      by_cases hcb : c = (k, k2)
      · subst hcb
        simp [h]
      · simp [h, hcb, Option.some_inj]

/-- Claim C5, counterexample: a flight whose origin equals its destination
(`AAA → AAA`) is a processed record with origin `AAA` and destination
`AAA`, but the arrivals-from table records nothing for it — the guard
`origin !== destination` excludes it, so the key is absent although the
count is positive. -/
theorem claimC5_counterexample :
    (aggregateFlightData zeroOffset [c5flight]).arrivalsFrom = []
      ∧ [c5flight].countP
          (fun f => (f.origin == some "AAA") && (f.destination == some "AAA")) = 1 :=
  ⟨rfl, by decide⟩

/-- Claim C5 (amended): for every destination `d` and origin `o`, the
nested arrivals-from lookup yields exactly the number of processed records
with truthy icao and origin, origin `o` distinct from destination `d`
(the `hasPair` guard); the key path is present precisely when that count
is positive.  Records with `origin === destination` or a missing origin
are not represented. -/
theorem claimC5_amended (ofs : Int → Int) (flights : List Flight) (d o : String) :
    lookup2 (aggregateFlightData ofs flights).arrivalsFrom d o
      = (if flights.countP
            (fun f => hasPair f && (destOf f == d) && (originOf f == o)) = 0
         then none
         else some (flights.countP
            (fun f => hasPair f && (destOf f == d) && (originOf f == o)))) := by
  cases flights with
  | nil => simp [aggregateFlightData, emptyAggResult, lookup2, Dict.getv?]
  | cons f0 rest =>
    rw [arrivalsFrom_cons, lookup2_tallyNest, count_filterMap_pair]
    have hcong : (f0 :: rest).countP (fun f => decide (arrivalKey f = some (d, o)))
        = (f0 :: rest).countP
            (fun f => hasPair f && (destOf f == d) && (originOf f == o)) := by
      refine List.countP_congr (fun f _ => ?_)
      by_cases hp : hasPair f = true <;>
        simp [arrivalKey, hp, Prod.mk.injEq, and_assoc]
    rw [hcong]

/-! ### Frequency listings (claim C7) -/

theorem cmpCount_trans {κ : Type} (a b c : κ × Nat)
    (h1 : cmpCount a b = true) (h2 : cmpCount b c = true) : cmpCount a c = true := by
  simp only [cmpCount, decide_eq_true_eq] at *
  omega

theorem cmpCount_total {κ : Type} (a b : κ × Nat) :
    cmpCount a b = true ∨ cmpCount b a = true := by
  simp only [cmpCount, decide_eq_true_eq]
  omega

theorem sortEntries_perm {κ : Type} (E : List (κ × Nat)) :
    E.Perm (sortEntries E) := (jsSort_perm _ _).symm

theorem sortEntries_sorted {κ : Type} (E : List (κ × Nat)) :
    (sortEntries E).Pairwise (fun a b => b.2 ≤ a.2) := by
  have h := pairwise_jsSort cmpCount_trans cmpCount_total E
  exact h.imp (fun hab => by simpa [cmpCount] using hab)

theorem sortEntries_filter {κ : Type} (E : List (κ × Nat)) (c : Nat) :
    (sortEntries E).filter (fun p => p.2 == c) = E.filter (fun p => p.2 == c) := by
  refine filter_jsSort _ ?_ E
  intro a b ha hb
  simp only [beq_iff_eq] at ha hb
  simp [cmpCount, ha, hb]

/-- Spec of one frequency listing: distinct observed keys, true counts,
non-increasing order, and the `Set`-derived distinct-value count. -/
theorem listing_spec (key : Flight → Option String) (flights : List Flight) :
    ((sortEntries (tally key flights)).map Prod.fst).Nodup
    ∧ (∀ k : String, k ∈ (sortEntries (tally key flights)).map Prod.fst
        ↔ k ∈ flights.filterMap key)
    ∧ (∀ p ∈ sortEntries (tally key flights),
        p.2 = (flights.filterMap key).count p.1)
    ∧ (sortEntries (tally key flights)).Pairwise (fun a b => b.2 ≤ a.2)
    ∧ (setOf key flights).length = (flights.filterMap key).toFinset.card := by
  have hperm : (tally key flights).Perm (sortEntries (tally key flights)) :=
    sortEntries_perm _
  have hkeys : (tally key flights).map Prod.fst = firstSeen (flights.filterMap key) :=
    keys_tally key flights
  have hkperm : ((tally key flights).map Prod.fst).Perm
      ((sortEntries (tally key flights)).map Prod.fst) := hperm.map _
  have hnd : ((tally key flights).map Prod.fst).Nodup :=
    hkeys ▸ nodup_firstSeen _
  refine ⟨hkperm.nodup_iff.mp hnd, ?_, ?_, sortEntries_sorted _, ?_⟩
  · intro k
    rw [← hkperm.mem_iff, hkeys, mem_firstSeen]
  · intro p hp
    have hmem : p ∈ tally key flights := hperm.mem_iff.mpr hp
    have hv := getv?_eq_of_mem hnd hmem
    rw [getv?_tally] at hv
    by_cases hc : (flights.filterMap key).count p.1 = 0
    · rw [if_pos hc] at hv
      cases hv
    · rw [if_neg hc] at hv
      exact (Option.some_inj.mp hv).symm
  · rw [setOf_eq, length_firstSeen]

/-- Claim C7: each top-5 list is the 5-element initial segment of the full
listing; each full listing lists every distinct observed value exactly
once with its true frequency, in non-increasing frequency order; and the
unique-count fields equal the number of distinct observed values. -/
theorem claimC7 (ofs : Int → Int) (flights : List Flight) :
    ((aggregateFlightData ofs flights).topIcaos
        = (aggregateFlightData ofs flights).allSortedIcaos.take 5
      ∧ ((aggregateFlightData ofs flights).allSortedIcaos.map Prod.fst).Nodup
      ∧ (∀ k, k ∈ (aggregateFlightData ofs flights).allSortedIcaos.map Prod.fst
          ↔ k ∈ flights.filterMap icaoKey)
      ∧ (∀ p ∈ (aggregateFlightData ofs flights).allSortedIcaos,
          p.2 = (flights.filterMap icaoKey).count p.1)
      ∧ (aggregateFlightData ofs flights).allSortedIcaos.Pairwise
          (fun a b => b.2 ≤ a.2)
      ∧ (aggregateFlightData ofs flights).uniqueAircraftCount
          = (flights.filterMap icaoKey).toFinset.card)
    ∧ ((aggregateFlightData ofs flights).topCallsigns
        = (aggregateFlightData ofs flights).allSortedCallsigns.take 5
      ∧ ((aggregateFlightData ofs flights).allSortedCallsigns.map Prod.fst).Nodup
      ∧ (∀ k, k ∈ (aggregateFlightData ofs flights).allSortedCallsigns.map Prod.fst
          ↔ k ∈ flights.filterMap callsignKey)
      ∧ (∀ p ∈ (aggregateFlightData ofs flights).allSortedCallsigns,
          p.2 = (flights.filterMap callsignKey).count p.1)
      ∧ (aggregateFlightData ofs flights).allSortedCallsigns.Pairwise
          (fun a b => b.2 ≤ a.2)
      ∧ (aggregateFlightData ofs flights).uniqueCallsignCount
          = (flights.filterMap callsignKey).toFinset.card)
    ∧ ((aggregateFlightData ofs flights).topRegistrations
        = (aggregateFlightData ofs flights).allSortedRegistrations.take 5
      ∧ ((aggregateFlightData ofs flights).allSortedRegistrations.map Prod.fst).Nodup
      ∧ (∀ k, k ∈ (aggregateFlightData ofs flights).allSortedRegistrations.map Prod.fst
          ↔ k ∈ flights.filterMap regKey)
      ∧ (∀ p ∈ (aggregateFlightData ofs flights).allSortedRegistrations,
          p.2 = (flights.filterMap regKey).count p.1)
      ∧ (aggregateFlightData ofs flights).allSortedRegistrations.Pairwise
          (fun a b => b.2 ≤ a.2)
      ∧ (aggregateFlightData ofs flights).uniqueRegistrationCount
          = (flights.filterMap regKey).toFinset.card) := by
  cases flights with
  | nil =>
    refine ⟨⟨rfl, ?_⟩, ⟨rfl, ?_⟩, ⟨rfl, ?_⟩⟩ <;>
      simp [aggregateFlightData, emptyAggResult]
  | cons f0 rest =>
    obtain ⟨hi1, hi2, hi3, hi4, hi5⟩ := listing_spec icaoKey (f0 :: rest)
    obtain ⟨hc1, hc2, hc3, hc4, hc5⟩ := listing_spec callsignKey (f0 :: rest)
    obtain ⟨hr1, hr2, hr3, hr4, hr5⟩ := listing_spec regKey (f0 :: rest)
    exact ⟨⟨rfl, hi1, hi2, hi3, hi4, hi5⟩, ⟨rfl, hc1, hc2, hc3, hc4, hc5⟩,
      ⟨rfl, hr1, hr2, hr3, hr4, hr5⟩⟩

/-- Claim C7, witness: on three concrete flights with a repeated icao the
full listing is frequency-sorted with true counts, the top-5 list is its
initial segment, and the unique count is the number of distinct icaos. -/
theorem claimC7_witness :
    (aggregateFlightData zeroOffset [c7f1, c7f2, c7f3]).allSortedIcaos
        = [("x", 2), ("y", 1)]
    ∧ (aggregateFlightData zeroOffset [c7f1, c7f2, c7f3]).topIcaos
        = (aggregateFlightData zeroOffset [c7f1, c7f2, c7f3]).allSortedIcaos.take 5
    ∧ (aggregateFlightData zeroOffset [c7f1, c7f2, c7f3]).uniqueAircraftCount
        = ([c7f1, c7f2, c7f3].filterMap icaoKey).toFinset.card := by
  have h := claimC7 zeroOffset [c7f1, c7f2, c7f3]
  exact ⟨by decide, h.1.1, h.1.2.2.2.2.2⟩

/-- Claim C4: `sortedAirports` (and likewise `sortedPairs`) is the first 20
entries of a reordering of the destination-count (pair-count) entry list
that is sorted by count in non-increasing order and, within each class of
equal counts, preserves the entry order — and the entry list itself holds
the distinct keys in first-seen scan order with their true counts. -/
theorem claimC4 (ofs : Int → Int) (flights : List Flight) :
    ((tally destKey flights).Perm (sortEntries (tally destKey flights))
      ∧ (sortEntries (tally destKey flights)).Pairwise (fun a b => b.2 ≤ a.2)
      ∧ (∀ c : Nat, (sortEntries (tally destKey flights)).filter (fun p => p.2 == c)
          = (tally destKey flights).filter (fun p => p.2 == c))
      ∧ (aggregateFlightData ofs flights).sortedAirports
          = (sortEntries (tally destKey flights)).take 20
      ∧ (tally destKey flights).map Prod.fst = firstSeen (flights.filterMap destKey)
      ∧ (∀ p ∈ tally destKey flights, p.2 = (flights.filterMap destKey).count p.1))
    ∧ ((tally pairKey flights).Perm (sortEntries (tally pairKey flights))
      ∧ (sortEntries (tally pairKey flights)).Pairwise (fun a b => b.2 ≤ a.2)
      ∧ (∀ c : Nat, (sortEntries (tally pairKey flights)).filter (fun p => p.2 == c)
          = (tally pairKey flights).filter (fun p => p.2 == c))
      ∧ (aggregateFlightData ofs flights).sortedPairs
          = (sortEntries (tally pairKey flights)).take 20
      ∧ (tally pairKey flights).map Prod.fst = firstSeen (flights.filterMap pairKey)
      ∧ (∀ p ∈ tally pairKey flights, p.2 = (flights.filterMap pairKey).count p.1)) := by
  have hvals : ∀ (key : Flight → Option String) (p : String × Nat),
      p ∈ tally key flights → p.2 = (flights.filterMap key).count p.1 := by
    intro key p hp
    have hnd : ((tally key flights).map Prod.fst).Nodup :=
      keys_tally key flights ▸ nodup_firstSeen _
    have hv := getv?_eq_of_mem hnd hp
    rw [getv?_tally] at hv
    by_cases hc : (flights.filterMap key).count p.1 = 0
    · rw [if_pos hc] at hv
      cases hv
    · rw [if_neg hc] at hv
      exact (Option.some_inj.mp hv).symm
  have hfield : (aggregateFlightData ofs flights).sortedAirports
        = (sortEntries (tally destKey flights)).take 20
      ∧ (aggregateFlightData ofs flights).sortedPairs
        = (sortEntries (tally pairKey flights)).take 20 := by
    cases flights with
    | nil => exact ⟨rfl, rfl⟩
    | cons f0 rest => exact ⟨rfl, rfl⟩
  exact ⟨⟨sortEntries_perm _, sortEntries_sorted _, fun c => sortEntries_filter _ c,
      hfield.1, keys_tally destKey flights, hvals destKey⟩,
    ⟨sortEntries_perm _, sortEntries_sorted _, fun c => sortEntries_filter _ c,
      hfield.2, keys_tally pairKey flights, hvals pairKey⟩⟩

/-- Claim C4, witness: on three concrete flights the top-airports list is
the count-sorted entry list, and the entry for BBB indeed carries its
landing count. -/
theorem claimC4_witness :
    (aggregateFlightData zeroOffset [c4f1, c4f2, c4f3]).sortedAirports
        = [("BBB", 2), ("AAA", 1)]
    ∧ (("BBB", 2) : String × Nat).2
        = ([c4f1, c4f2, c4f3].filterMap destKey).count "BBB" := by
  have h := claimC4 zeroOffset [c4f1, c4f2, c4f3]
  exact ⟨by decide, h.1.2.2.2.2.2 ("BBB", 2) (by decide)⟩

/-- Claim C6: `processInitialData` throws its single error exactly when no
row has a parseable landing time; otherwise it returns the converted
remaining rows sorted ascending by landing time, with `earliestTime` and
`latestTime` the minimum and maximum landing times of the retained rows. -/
theorem claimC6 (rs : List RawFlight) :
    (processInitialData rs
        = .error "No valid rows with parseable landing_times found in CSV."
      ↔ ∀ r ∈ rs, r.landing_time = none)
    ∧ (∀ res, processInitialData rs = .ok res →
        res.rawFlights.Perm ((rs.filter (fun r => r.landing_time.isSome)).map parseRaw)
        ∧ res.rawFlights.Pairwise (fun a b => a.landing_time ≤ b.landing_time)
        ∧ res.earliestTime ∈ res.rawFlights.map (fun f => f.landing_time)
        ∧ res.latestTime ∈ res.rawFlights.map (fun f => f.landing_time)
        ∧ (∀ f ∈ res.rawFlights,
            res.earliestTime ≤ f.landing_time ∧ f.landing_time ≤ res.latestTime)) := by
  have hperm : (jsSort leLanding
        ((rs.filter (fun r => r.landing_time.isSome)).map parseRaw)).Perm
      ((rs.filter (fun r => r.landing_time.isSome)).map parseRaw) :=
    jsSort_perm _ _
  have hsortb : (jsSort leLanding
        ((rs.filter (fun r => r.landing_time.isSome)).map parseRaw)).Pairwise
      (fun a b => leLanding a b = true) := by
    refine pairwise_jsSort ?_ ?_ _
    · intro a b c h1 h2
      simp only [leLanding, decide_eq_true_eq] at *
      omega
    · intro a b
      simp only [leLanding, decide_eq_true_eq]
      omega
  have hsort : (jsSort leLanding
        ((rs.filter (fun r => r.landing_time.isSome)).map parseRaw)).Pairwise
      (fun a b => a.landing_time ≤ b.landing_time) :=
    hsortb.imp (fun hab => by simpa [leLanding] using hab)
  cases hL : jsSort leLanding ((rs.filter (fun r => r.landing_time.isSome)).map parseRaw) with
  | nil =>
    have hres : processInitialData rs
        = .error "No valid rows with parseable landing_times found in CSV." := by
      unfold processInitialData
      rw [hL]
    have hmapped : ((rs.filter (fun r => r.landing_time.isSome)).map parseRaw) = [] := by
      have := hperm
      rw [hL] at this
      exact (this.symm).eq_nil
    constructor
    · rw [hres]
      constructor
      · intro _ r hr
        have hfil : rs.filter (fun r => r.landing_time.isSome) = [] :=
          List.map_eq_nil_iff.mp hmapped
        have := List.filter_eq_nil_iff.mp hfil r hr
        simpa [Option.not_isSome_iff_eq_none] using this
      · intro _
        rfl
    · intro res hok
      rw [hres] at hok
      cases hok
  | cons f restL =>
    have hres : processInitialData rs
        = .ok { rawFlights := f :: restL
                earliestTime := f.landing_time
                latestTime := ((f :: restL).getLast
                  (List.cons_ne_nil f restL)).landing_time } := by
      unfold processInitialData
      rw [hL]
    constructor
    · rw [hres]
      constructor
      · intro h
        cases h
      · intro hall
        exfalso
        have hfil : rs.filter (fun r => r.landing_time.isSome) = [] := by
          refine List.filter_eq_nil_iff.mpr (fun r hr => ?_)
          simp [hall r hr]
        rw [hfil] at hL
        simp [jsSort] at hL
    · intro res hok
      rw [hres] at hok
      injection hok with hok
      subst hok
      rw [hL] at hperm hsort
      refine ⟨hperm, hsort, ?_, ?_, ?_⟩
      · exact List.mem_map_of_mem _ (List.mem_cons_self f restL)
      · exact List.mem_map_of_mem _ (List.getLast_mem (List.cons_ne_nil f restL))
      · intro g hg
        constructor
        · exact head_min_of_sorted (fun x => x.landing_time) (f :: restL) hsort
            (List.cons_ne_nil f restL) g hg
        · exact getLast_max_of_sorted (fun x => x.landing_time) (f :: restL) hsort
            (List.cons_ne_nil f restL) g hg

/-- Claim C6, witness: on a concrete list with one unparseable and two
out-of-order valid rows, `processInitialData` succeeds with the sorted
remaining rows and the correct extremes. -/
theorem claimC6_witness :
    processInitialData c6rawList = .ok c6result
    ∧ c6result.rawFlights.Perm
        ((c6rawList.filter (fun r => r.landing_time.isSome)).map parseRaw)
    ∧ c6result.rawFlights.Pairwise (fun a b => a.landing_time ≤ b.landing_time)
    ∧ (∀ f ∈ c6result.rawFlights,
        c6result.earliestTime ≤ f.landing_time
        ∧ f.landing_time ≤ c6result.latestTime) := by
  have hok : processInitialData c6rawList = .ok c6result := by rfl
  have h := (claimC6 c6rawList).2 c6result hok
  exact ⟨hok, h.1, h.2.1, h.2.2.2.2⟩

/-! ### The daily-activity series (claim C3) -/

theorem dailyLabels_cons (ofs : Int → Int) (f0 : Flight) (rest : List Flight) :
    (aggregateFlightData ofs (f0 :: rest)).dailyLabels
      = dayRange (utcDay f0.landing_time)
          (utcDay (((f0 :: rest).getLast (List.cons_ne_nil f0 rest)).landing_time)) := rfl

theorem dailyTotalLandings_cons (ofs : Int → Int) (f0 : Flight) (rest : List Flight) :
    (aggregateFlightData ofs (f0 :: rest)).dailyTotalLandings
      = (dayRange (utcDay f0.landing_time)
            (utcDay (((f0 :: rest).getLast (List.cons_ne_nil f0 rest)).landing_time))).map
          (fun d => ((flightsOn (f0 :: rest) d).filter
            (fun f => truthy f.destination)).length) := rfl

theorem numberOfDays_cons (ofs : Int → Int) (f0 : Flight) (rest : List Flight) :
    (aggregateFlightData ofs (f0 :: rest)).numberOfDays
      = (dayRange (utcDay f0.landing_time)
          (utcDay (((f0 :: rest).getLast
            (List.cons_ne_nil f0 rest)).landing_time))).length := rfl

/-- Claim C3, counterexample: a single flight without a destination gives a
one-day series whose total-landing bucket is 0, so this flight is counted
in no bucket although its landing time lies in the covered range. -/
theorem claimC3_counterexample :
    (aggregateFlightData zeroOffset [c3cexFlight]).dailyLabels.length = 1
    ∧ (aggregateFlightData zeroOffset [c3cexFlight]).dailyTotalLandings.sum = 0
    ∧ [c3cexFlight].length = 1 := by
  decide

/-- Claim C3 (amended): for a non-empty list sorted by landing time, the
series has exactly one entry per UTC day from the truncated minimum to the
truncated maximum landing time inclusive (zero-activity days included),
`numberOfDays` is that inclusive span, and each flight *with a truthy
destination* is counted in the bucket of the UTC calendar date of its
landing time (destination-less rows are counted in no bucket). -/
theorem claimC3_amended (ofs : Int → Int) (flights : List Flight) (hne : flights ≠ [])
    (hs : flights.Pairwise (fun a b => a.landing_time ≤ b.landing_time)) :
    (∀ f ∈ flights, (flights.head hne).landing_time ≤ f.landing_time
        ∧ f.landing_time ≤ (flights.getLast hne).landing_time)
    ∧ (∀ d : Int, d ∈ (aggregateFlightData ofs flights).dailyLabels
        ↔ utcDay ((flights.head hne).landing_time) ≤ d
          ∧ d ≤ utcDay ((flights.getLast hne).landing_time))
    ∧ (aggregateFlightData ofs flights).dailyLabels.Nodup
    ∧ (aggregateFlightData ofs flights).numberOfDays
        = (aggregateFlightData ofs flights).dailyLabels.length
    ∧ ((aggregateFlightData ofs flights).numberOfDays : Int)
        = utcDay ((flights.getLast hne).landing_time)
          - utcDay ((flights.head hne).landing_time) + 1
    ∧ (aggregateFlightData ofs flights).dailyTotalLandings
        = (aggregateFlightData ofs flights).dailyLabels.map
            (fun d => flights.countP
              (fun f => truthy f.destination && (utcDay f.landing_time == d)))
    ∧ (aggregateFlightData ofs flights).dailyTotalLandings.sum
        = flights.countP (fun f => truthy f.destination) := by
  cases flights with
  | nil => exact absurd rfl hne
  | cons f0 rest =>
    have hminmax : ∀ f ∈ (f0 :: rest),
        ((f0 :: rest).head (List.cons_ne_nil f0 rest)).landing_time ≤ f.landing_time
        ∧ f.landing_time
            ≤ ((f0 :: rest).getLast (List.cons_ne_nil f0 rest)).landing_time :=
      fun f hf =>
        ⟨head_min_of_sorted (fun x => x.landing_time) _ hs (List.cons_ne_nil f0 rest) f hf,
         getLast_max_of_sorted (fun x => x.landing_time) _ hs (List.cons_ne_nil f0 rest) f hf⟩
    have hle : utcDay (((f0 :: rest).head (List.cons_ne_nil f0 rest)).landing_time)
        ≤ utcDay (((f0 :: rest).getLast (List.cons_ne_nil f0 rest)).landing_time) :=
      utcDay_mono ((hminmax _ (List.mem_cons_self f0 rest)).2)
    have hmapEq : (aggregateFlightData ofs (f0 :: rest)).dailyTotalLandings
        = (aggregateFlightData ofs (f0 :: rest)).dailyLabels.map
            (fun d => (f0 :: rest).countP
              (fun f => truthy f.destination && (utcDay f.landing_time == d))) := by
      rw [dailyTotalLandings_cons, dailyLabels_cons]
      refine List.map_congr_left (fun d _ => ?_)
      rw [← List.countP_eq_length_filter]
      simp only [flightsOn]
      rw [List.countP_filter]
    refine ⟨hminmax, ?_, ?_, rfl, ?_, hmapEq, ?_⟩
    · intro d
      rw [dailyLabels_cons]
      exact mem_dayRange _ _ d
    · rw [dailyLabels_cons]
      exact nodup_dayRange _ _
    · rw [numberOfDays_cons, length_dayRange]
      have hgl : ((f0 :: rest).getLast hne)
          = ((f0 :: rest).getLast (List.cons_ne_nil f0 rest)) := rfl
      rw [hgl]
      simp only [List.head_cons] at hle ⊢
      omega
    · rw [hmapEq, dailyLabels_cons]
      refine sum_over_labels (fun f => truthy f.destination) (f0 :: rest) _
        (nodup_dayRange _ _) ?_
      intro f hf _
      rw [mem_dayRange]
      exact ⟨utcDay_mono (hminmax f hf).1, utcDay_mono (hminmax f hf).2⟩

/-- Claim C3, witness: on a sorted two-flight list spanning UTC days 0 to
2, the series has 3 entries and its buckets sum to the number of flights
with a destination. -/
theorem claimC3_witness :
    c3list ≠ []
    ∧ c3list.Pairwise (fun a b => a.landing_time ≤ b.landing_time)
    ∧ (aggregateFlightData zeroOffset c3list).numberOfDays = 3
    ∧ (aggregateFlightData zeroOffset c3list).dailyTotalLandings.sum
        = c3list.countP (fun f => truthy f.destination) := by
  have h := claimC3_amended zeroOffset c3list (by decide) (by decide)
  exact ⟨by decide, by decide, by decide, h.2.2.2.2.2.2⟩

/-- Claim C9: the date-range filter yields a subsequence of the raw list;
if the raw list is sorted by landing time, so is the filtered list, and
the first and last elements that `aggregateFlightData` then reads as
`minTime` and `maxTime` are its true minimum and maximum landing times. -/
theorem claimC9 (raw : List Flight) (range : Option (Int × Int)) :
    (filterByDateRange raw range).Sublist raw
    ∧ (raw.Pairwise (fun a b => a.landing_time ≤ b.landing_time) →
        (filterByDateRange raw range).Pairwise
          (fun a b => a.landing_time ≤ b.landing_time)
        ∧ ∀ (h : filterByDateRange raw range ≠ []),
            ∀ f ∈ filterByDateRange raw range,
              ((filterByDateRange raw range).head h).landing_time ≤ f.landing_time
              ∧ f.landing_time
                  ≤ ((filterByDateRange raw range).getLast h).landing_time) := by
  have hsub : (filterByDateRange raw range).Sublist raw := by
    cases range with
    | none => exact List.Sublist.refl raw
    | some p =>
      obtain ⟨s, e⟩ := p
      exact List.filter_sublist raw
  refine ⟨hsub, fun hsorted => ?_⟩
  have hps : (filterByDateRange raw range).Pairwise
      (fun a b => a.landing_time ≤ b.landing_time) := hsorted.sublist hsub
  refine ⟨hps, fun h f hf =>
    ⟨head_min_of_sorted (fun x => x.landing_time) _ hps h f hf,
     getLast_max_of_sorted (fun x => x.landing_time) _ hps h f hf⟩⟩

/-- Claim C9, witness: a concrete range keeps the two later flights of a
sorted three-flight list, and the filtered list is a sorted subsequence. -/
theorem claimC9_witness :
    filterByDateRange c9raw c9range = [c9b, c9c]
    ∧ (filterByDateRange c9raw c9range).Sublist c9raw
    ∧ (filterByDateRange c9raw c9range).Pairwise
        (fun a b => a.landing_time ≤ b.landing_time) := by
  have h := claimC9 c9raw c9range
  exact ⟨by decide, h.1, (h.2 (by decide)).1⟩

end IceAir
